import Mathlib

/-!
Verification of the per-connection socket engine `MangosSocket`
(src/src/framework/Network/MangosSocket.h).

The repository ships only the class header: the packed wire-header structs
and a handful of inline member bodies (`IsClosed`, `GetRemoteAddress`,
`SetSession`, `SetClientSocket`, `IsServerSide`) are source code; the
remaining member functions (`SendPacket`, `CloseSocket`, `open`,
`handle_input*`, `iSendPacket`, `iFlushPacketQueue`, `handle_output`,
`Update`) are declared but their definitions are not part of the sources,
so they are modelled from the specification, as marked on each definition.

Machine integers are modelled as `Nat`; a byte is a `Nat` (values < 256 are
produced by the little-endian serializer `putLE`). The header crypto
transform is external and opaque per the specification, so the inbound
model reads headers in the clear and the outbound model is parametrised by
an arbitrary encoding function `enc : WorldPacket → List Nat`, mirroring
the `Crypt` template parameter of the class.
-/

namespace MangosSpec

/-- A `WorldPacket`: an opcode plus payload bytes.  The class stores
packets by pointer; only opcode and contents matter to this engine. -/
structure WorldPacket where
  opcode : Nat
  payload : List Nat
deriving DecidableEq, Repr

/-- Little-endian serialisation of `v` into `w` bytes. -/
def putLE : Nat → Nat → List Nat
  | 0, _ => []
  | w + 1, v => v % 256 :: putLE w (v / 256)

/-- Field widths, in bytes, of `ServerPktHeader` (src lines 33-37:
`uint16 size; uint16 cmd;` under `#pragma pack(1)`). -/
def serverPktHeaderWidths : List Nat := [2, 2]

/-- Field widths, in bytes, of `ClientPktHeader` (src lines 39-43:
`uint16 size; uint32 cmd;` under `#pragma pack(1)`). -/
def clientPktHeaderWidths : List Nat := [2, 4]

/-- Size of a struct under `#pragma pack(1)`: no padding, so the sum of
the field widths. -/
def packedSizeof (ws : List Nat) : Nat := ws.sum

/-- Byte offsets of the fields of a struct under `#pragma pack(1)`:
each field starts where the previous one ended. -/
def packedOffsets : List Nat → List Nat
  | [] => []
  | w :: ws => 0 :: (packedOffsets ws).map (· + w)

/-- Wire bytes of a `ServerPktHeader` with the given field values:
16-bit size field first, then the 16-bit command, both little-endian,
no padding. -/
def encodeServerPktHeader (size cmd : Nat) : List Nat :=
  putLE 2 size ++ putLE 2 cmd

/-- Wire bytes of a `ClientPktHeader` with the given field values:
16-bit size field first, then the 32-bit command, both little-endian,
no padding. -/
def encodeClientPktHeader (size cmd : Nat) : List Nat :=
  putLE 2 size ++ putLE 4 cmd

/-- The size (`uint16`) field of a header: bytes 0-1, little-endian. -/
def decodeSize (h : List Nat) : Nat :=
  h.getD 0 0 + 256 * h.getD 1 0

/-- The `uint16` command field of a `ServerPktHeader`: bytes 2-3. -/
def decodeServerCmd (h : List Nat) : Nat :=
  h.getD 2 0 + 256 * h.getD 3 0

/-- The `uint32` command field of a `ClientPktHeader`: bytes 2-5. -/
def decodeClientCmd (h : List Nat) : Nat :=
  h.getD 2 0 + 256 * (h.getD 3 0 + 256 * (h.getD 4 0 + 256 * h.getD 5 0))

/-- Modelled from the spec: outbound framing of one packet, role
dependent (`role` true means server side, so `ServerPktHeader` shape,
else `ClientPktHeader` shape); header first, then the payload bytes. -/
def encodePacket (serverSide : Bool) (p : WorldPacket) : List Nat :=
  if serverSide then encodeServerPktHeader p.payload.length p.opcode ++ p.payload
  else encodeClientPktHeader p.payload.length p.opcode ++ p.payload

/-! ### Output side: `m_OutBuffer`, `m_PacketQueue`, the wire

The output state is guarded by `m_OutBufferLock`; the lock serialises all
mutations, so the concurrent behaviour is exactly the set of sequential
traces over the operations below.  `sent` is a ghost log of the packets
whose `SendPacket` call completed, in completion order; `wire` is the
byte sequence delivered to the transport so far. -/

/-- Output-side state: the bytes currently in `m_OutBuffer`, the packets
in `m_PacketQueue` (head = oldest), the bytes already delivered to the
transport, and the ghost completion log. -/
structure OutState where
  outBuffer : List Nat
  packetQueue : List WorldPacket
  wire : List Nat
  sent : List WorldPacket
deriving DecidableEq, Repr

/-- The output state of a freshly opened socket: empty buffer, empty
queue, nothing on the wire. -/
def initOutState : OutState :=
  { outBuffer := [], packetQueue := [], wire := [], sent := [] }

/-- Modelled from the spec (body of `iSendPacket`, declared at src line
176, is not in the sources): encode the packet's header and try to append
header+payload to `m_OutBuffer`; `none` (the -1 of the source) when the
remaining capacity is insufficient, otherwise the updated state. -/
def iSendPacket (cap : Nat) (enc : WorldPacket → List Nat)
    (s : OutState) (p : WorldPacket) : Option OutState :=
  if cap < s.outBuffer.length + (enc p).length then none
  else some { s with outBuffer := s.outBuffer ++ enc p }

/-- Modelled from the spec (body of `SendPacket`, declared at src line
121, is not in the sources): under the output lock, append to the queue
when the queue is non-empty; otherwise try `iSendPacket`, and on a
no-space signal push the packet onto the queue.  Returns 0 for success
(the source returns -1 only on failure).  `sent` records completion. -/
def SendPacket (cap : Nat) (enc : WorldPacket → List Nat)
    (s : OutState) (p : WorldPacket) : OutState × Int :=
  match s.packetQueue with
  | q :: qs =>
      ({ s with packetQueue := (q :: qs) ++ [p], sent := s.sent ++ [p] }, 0)
  | [] =>
      match iSendPacket cap enc s p with
      | some s1 => ({ s1 with sent := s1.sent ++ [p] }, 0)
      | none => ({ s with packetQueue := [p], sent := s.sent ++ [p] }, 0)

/-- Modelled from the spec (body of `iFlushPacketQueue`, declared at src
line 182, is not in the sources): while the queue is non-empty and the
next queued packet fits in the remaining buffer space, move it from the
queue to the buffer, in FIFO order; stop at the first packet that does
not fit. -/
def flushLoop (cap : Nat) (enc : WorldPacket → List Nat) :
    List Nat → List WorldPacket → List Nat × List WorldPacket
  | buf, [] => (buf, [])
  | buf, p :: rest =>
      if cap < buf.length + (enc p).length then (buf, p :: rest)
      else flushLoop cap enc (buf ++ enc p) rest

/-- `iFlushPacketQueue` acting on the whole output state. -/
def iFlushPacketQueue (cap : Nat) (enc : WorldPacket → List Nat)
    (s : OutState) : OutState :=
  { s with outBuffer := (flushLoop cap enc s.outBuffer s.packetQueue).1,
           packetQueue := (flushLoop cap enc s.outBuffer s.packetQueue).2 }

/-- The longest prefix of the queue that fits into the remaining buffer
space, packet by packet (used to characterise `flushLoop`). -/
def flushable (cap bufLen : Nat) (enc : WorldPacket → List Nat) :
    List WorldPacket → List WorldPacket
  | [] => []
  | p :: rest =>
      if cap < bufLen + (enc p).length then []
      else p :: flushable cap (bufLen + (enc p).length) enc rest

/-- Modelled from the spec (body of `handle_output`, declared at src line
155, is not in the sources): one speculative send — the transport accepts
some `n` bytes from the front of the buffer, the remainder is shifted to
the front; when the buffer fully drains, `iFlushPacketQueue` runs again. -/
def handle_output (cap : Nat) (enc : WorldPacket → List Nat)
    (n : Nat) (s : OutState) : OutState :=
  let k := min n s.outBuffer.length
  let s1 := { s with wire := s.wire ++ s.outBuffer.take k,
                     outBuffer := s.outBuffer.drop k }
  if s1.outBuffer.isEmpty then iFlushPacketQueue cap enc s1 else s1

/-- One serialised operation on the output state: a completed
`SendPacket` call, an `Update` tick (queue flush), or a write-readiness
event in which the transport accepts `n` bytes. -/
inductive OutOp where
  | send (p : WorldPacket)
  | update
  | output (n : Nat)
deriving DecidableEq, Repr

/-- Apply one output operation. -/
def stepOut (cap : Nat) (enc : WorldPacket → List Nat)
    (s : OutState) : OutOp → OutState
  | .send p => (SendPacket cap enc s p).1
  | .update => iFlushPacketQueue cap enc s
  | .output n => handle_output cap enc n s

/-- Run a serialised trace of output operations from the initial state. -/
def runOut (cap : Nat) (enc : WorldPacket → List Nat)
    (ops : List OutOp) : OutState :=
  ops.foldl (stepOut cap enc) initOutState

/-- The output-side conservation invariant: the bytes already on the
wire, then the buffered bytes, then the encodings of the queued packets
are exactly the encodings, in completion order, of every packet whose
`SendPacket` call completed. -/
def OutInv (enc : WorldPacket → List Nat) (s : OutState) : Prop :=
  s.wire ++ s.outBuffer ++ (s.packetQueue.map enc).flatten
    = (s.sent.map enc).flatten

/-! ### Input side: `m_Header`, `m_RecvWPct`, delivery to the session

Input state is owned exclusively by the dispatch thread; the model is a
deterministic byte-at-a-time state machine, and an input event delivering
a chunk is a fold of single bytes, so arbitrary fragmentation is exactly
a partition of the byte stream into chunks.  The server side receives
`ClientPktHeader`-shaped headers (6 bytes); the crypto transform is
opaque and external, so headers are read in the clear here. -/

/-- Size in bytes of an inbound header on the server side. -/
def clientHeaderSize : Nat := packedSizeof clientPktHeaderWidths

/-- The packet currently being assembled (`m_RecvWPct`): its decoded
opcode, the declared payload length from the header, and the payload
bytes received so far. -/
structure PendingPacket where
  cmd : Nat
  declaredLen : Nat
  got : List Nat
deriving DecidableEq, Repr

/-- Input-side state: the header fragment (`m_Header`), the packet in
flight (`m_RecvWPct`, `none` while in header phase), the packets handed
to the session so far, and whether input processing closed the
connection. -/
structure InState where
  headerBuf : List Nat
  recvWPct : Option PendingPacket
  delivered : List WorldPacket
  closedInput : Bool
deriving DecidableEq, Repr

/-- The input state of a freshly opened socket. -/
def initInState : InState :=
  { headerBuf := [], recvWPct := none, delivered := [], closedInput := false }

/-- Modelled from the spec (bodies of `handle_input_header`,
`handle_input_payload` and `handle_input_missing_data`, declared at src
lines 165-167, are not in the sources): consume one inbound byte.
Header phase accumulates exactly `clientHeaderSize` bytes, then decodes:
a declared length over `maxLen` closes the connection with nothing
delivered and no payload buffer allocated; a zero declared length
completes the packet immediately; otherwise a pending packet sized to
the declared length is created.  Payload phase accumulates bytes until
the declared length is reached, then hands the packet to the session and
returns to header phase.  A closed connection consumes nothing. -/
def inputByte (maxLen : Nat) (s : InState) (b : Nat) : InState :=
  if s.closedInput then s
  else
    match s.recvWPct with
    | some p =>
        if p.got.length + 1 = p.declaredLen then
          { s with recvWPct := none,
                   delivered := s.delivered ++ [⟨p.cmd, p.got ++ [b]⟩] }
        else { s with recvWPct := some { p with got := p.got ++ [b] } }
    | none =>
        if s.headerBuf.length + 1 = clientHeaderSize then
          if maxLen < decodeSize (s.headerBuf ++ [b]) then
            { s with headerBuf := s.headerBuf ++ [b], closedInput := true }
          else if decodeSize (s.headerBuf ++ [b]) = 0 then
            { s with headerBuf := [],
                     delivered := s.delivered ++
                       [⟨decodeClientCmd (s.headerBuf ++ [b]), []⟩] }
          else
            { s with headerBuf := [],
                     recvWPct := some ⟨decodeClientCmd (s.headerBuf ++ [b]),
                                       decodeSize (s.headerBuf ++ [b]), []⟩ }
        else { s with headerBuf := s.headerBuf ++ [b] }

/-- One input event (`handle_input` after one speculative `recv`)
delivering a chunk of bytes: distribute them byte by byte. -/
def feedBytes (maxLen : Nat) (s : InState) (bs : List Nat) : InState :=
  bs.foldl (inputByte maxLen) s

/-- A sequence of input events, one chunk each. -/
def feedChunks (maxLen : Nat) (s : InState) (cs : List (List Nat)) : InState :=
  cs.foldl (feedBytes maxLen) s

/-! ### Connection lifecycle -/

/-- Whole-connection state: the remote address (`m_Address`), the role
flag (`m_isServerSocket`), the closing flag (`closing_`), a count of
transport-teardown requests issued (ghost, to express idempotence), the
session reference (`m_Session`, a non-owning pointer modelled by an
optional id), and the input and output sub-states. -/
structure Conn where
  m_Address : String
  m_isServerSocket : Bool
  closing : Bool
  teardowns : Nat
  m_Session : Option Nat
  inp : InState
  out : OutState
deriving DecidableEq, Repr

/-- `IsClosed` (src line 110): `return closing_;`. -/
def IsClosed (c : Conn) : Bool := c.closing

/-- `GetRemoteAddress` (src line 116): `return m_Address;`. -/
def GetRemoteAddress (c : Conn) : String := c.m_Address

/-- `IsServerSide` (src line 134): `return m_isServerSocket;`. -/
def IsServerSide (c : Conn) : Bool := c.m_isServerSocket

/-- `SetSession` (src line 129): `m_Session = t;`. -/
def SetSession (c : Conn) (t : Nat) : Conn := { c with m_Session := some t }

/-- `SetClientSocket` (src line 130): `m_isServerSocket = false;`. -/
def SetClientSocket (c : Conn) : Conn := { c with m_isServerSocket := false }

/-- Modelled from the spec (body of `CloseSocket`, declared at src line
113, is not in the sources): idempotent close — on the first call set
`closing_` and request transport teardown from the dispatch substrate;
later calls find `closing_` already set and do nothing. -/
def CloseSocket (c : Conn) : Conn :=
  if c.closing then c
  else { c with closing := true, teardowns := c.teardowns + 1 }

/-- The framing function a connection uses for outbound packets: its
role selects the header shape. -/
def encFor (c : Conn) : WorldPacket → List Nat :=
  encodePacket c.m_isServerSocket

/-- One operation on a connection, from any thread (the locks serialise
every access, so connection behaviour is the set of sequential traces). -/
inductive ConnOp where
  | sendPacket (p : WorldPacket)
  | update
  | handleOutput (n : Nat)
  | handleInput (bs : List Nat)
  | closeSocket
  | setSession (t : Nat)
  | setClientSocket
deriving DecidableEq, Repr

/-- Modelled from the spec for the members whose bodies are not in the
sources (`SendPacket`, `Update`, `handle_output`, `handle_input`,
`CloseSocket`); the inline accessors come straight from the source.
Once `closing_` is set no further application-level I/O is accepted; a
protocol violation found by input processing funnels into `CloseSocket`. -/
def stepConn (cap maxLen : Nat) (c : Conn) : ConnOp → Conn
  | .sendPacket p =>
      if c.closing then c
      else { c with out := (SendPacket cap (encFor c) c.out p).1 }
  | .update =>
      if c.closing then c
      else { c with out := iFlushPacketQueue cap (encFor c) c.out }
  | .handleOutput n =>
      if c.closing then c
      else { c with out := handle_output cap (encFor c) n c.out }
  | .handleInput bs =>
      if c.closing then c
      else
        if (feedBytes maxLen c.inp bs).closedInput then
          CloseSocket { c with inp := feedBytes maxLen c.inp bs }
        else { c with inp := feedBytes maxLen c.inp bs }
  | .closeSocket => CloseSocket c
  | .setSession t => SetSession c t
  | .setClientSocket => SetClientSocket c

/-- Run a serialised trace of connection operations. -/
def runConn (cap maxLen : Nat) (c : Conn) (ops : List ConnOp) : Conn :=
  ops.foldl (stepConn cap maxLen) c

/-- A fresh connection as produced by `open`: not closing, no teardown
requested, server role, no session bound. -/
def initConn (addr : String) : Conn :=
  { m_Address := addr, m_isServerSocket := true, closing := false,
    teardowns := 0, m_Session := none, inp := initInState,
    out := initOutState }

/-! ### Lock discipline of `SetSession`

`m_SessionLock` is documented in the source (src lines 196-197) as the
mutex protecting `m_Session`.  To examine whether `SetSession` honours
that, its inline body is transcribed as a trace of primitive actions on
the session lock and the session field. -/

/-- Primitive actions touching `m_SessionLock` / `m_Session`. -/
inductive SessionAction where
  | acquireSessionLock
  | releaseSessionLock
  | writeSessionField
deriving DecidableEq, Repr

/-- Effect of an action on the lock-hold depth. -/
def lockDepthStep (d : Nat) : SessionAction → Nat
  | .acquireSessionLock => d + 1
  | .releaseSessionLock => d - 1
  | .writeSessionField => d

/-- Whether every write to `m_Session` in the action trace happens while
the session lock is held (`d` = lock depth on entry). -/
def writesLockProtected : Nat → List SessionAction → Bool
  | _, [] => true
  | d, .writeSessionField :: rest =>
      decide (0 < d) && writesLockProtected d rest
  | d, a :: rest => writesLockProtected (lockDepthStep d a) rest

/-- The body of `SetSession` as written in the source (src line 129):
`void SetSession(SessionType* t) { m_Session = t; }` — a single write to
`m_Session`, with no lock operation. -/
def setSessionBody : List SessionAction := [.writeSessionField]

/-- The body `SetSession` would need for the documented discipline of
`m_SessionLock` (src lines 196-197, "Mutex lock to protect m_Session"):
take the lock around the write. -/
def setSessionBodyLocked : List SessionAction :=
  [.acquireSessionLock, .writeSessionField, .releaseSessionLock]

/-! ## Helper lemmas -/

theorem putLE_length (w v : Nat) : (putLE w v).length = w := by
  induction w generalizing v with
  | zero => rfl
  | succ w ih => simp [putLE, ih]

theorem decodeSize_encodeClient (len cmd : Nat) (rest : List Nat) :
    decodeSize (encodeClientPktHeader len cmd ++ rest) = len % 65536 := by
  simp [encodeClientPktHeader, putLE, decodeSize]
  omega

theorem decodeClientCmd_encodeClient (len cmd : Nat) (rest : List Nat) :
    decodeClientCmd (encodeClientPktHeader len cmd ++ rest)
      = cmd % 4294967296 := by
  simp [encodeClientPktHeader, putLE, decodeClientCmd]
  omega

/-! ## C6: packed wire-header layout -/

/-- C6: the wire header types are packed with no padding and match the
specified layouts exactly — `ServerPktHeader` is a 16-bit size field at
offset 0 followed by a 16-bit command at offset 2, 4 bytes in total, and
`ClientPktHeader` is a 16-bit size field at offset 0 followed by a
32-bit command at offset 2, 6 bytes in total; serialising and re-reading
either header recovers the field values. -/
theorem pktHeader_packed_layout (size cmd16 cmd32 : Nat)
    (hs : size < 65536) (h16 : cmd16 < 65536) (h32 : cmd32 < 4294967296) :
    packedSizeof serverPktHeaderWidths = 4 ∧
    packedOffsets serverPktHeaderWidths = [0, 2] ∧
    packedSizeof clientPktHeaderWidths = 6 ∧
    packedOffsets clientPktHeaderWidths = [0, 2] ∧
    (encodeServerPktHeader size cmd16).length = 4 ∧
    (encodeClientPktHeader size cmd32).length = 6 ∧
    decodeSize (encodeServerPktHeader size cmd16) = size ∧
    decodeServerCmd (encodeServerPktHeader size cmd16) = cmd16 ∧
    decodeSize (encodeClientPktHeader size cmd32) = size ∧
    decodeClientCmd (encodeClientPktHeader size cmd32) = cmd32 := by
  refine ⟨rfl, rfl, rfl, rfl, ?_, ?_, ?_, ?_, ?_, ?_⟩
  · simp [encodeServerPktHeader, putLE_length]
  · simp [encodeClientPktHeader, putLE_length]
  · simp [encodeServerPktHeader, putLE, decodeSize]; omega
  · simp [encodeServerPktHeader, putLE, decodeServerCmd]; omega
  · have := decodeSize_encodeClient size cmd32 []
    simpa [Nat.mod_eq_of_lt hs] using this
  · have := decodeClientCmd_encodeClient size cmd32 []
    simpa [Nat.mod_eq_of_lt h32] using this

/-- C6 witness: the layout facts at size 300, commands 42 and 70000. -/
theorem pktHeader_packed_layout_witness :
    packedSizeof serverPktHeaderWidths = 4 ∧
    packedOffsets serverPktHeaderWidths = [0, 2] ∧
    packedSizeof clientPktHeaderWidths = 6 ∧
    packedOffsets clientPktHeaderWidths = [0, 2] ∧
    (encodeServerPktHeader 300 42).length = 4 ∧
    (encodeClientPktHeader 300 70000).length = 6 ∧
    decodeSize (encodeServerPktHeader 300 42) = 300 ∧
    decodeServerCmd (encodeServerPktHeader 300 42) = 42 ∧
    decodeSize (encodeClientPktHeader 300 70000) = 300 ∧
    decodeClientCmd (encodeClientPktHeader 300 70000) = 70000 :=
  pktHeader_packed_layout 300 42 70000 (by decide) (by decide) (by decide)

/-! ## C8: the `SetSession` body versus the documented lock discipline -/

/-- C8: the claim says every access to the session reference, including
the write performed by `SetSession` itself, is protected by the session
lock; but the inline body of `SetSession` in the source (line 129) is a
bare write to `m_Session` with no acquisition of `m_SessionLock`, the
mutex the source itself documents (lines 196-197) as protecting
`m_Session`.  The lock-discipline check rejects the source body and
accepts the locked variant the documentation prescribes. -/
theorem setSession_write_not_lock_protected :
    writesLockProtected 0 setSessionBody = false ∧
    writesLockProtected 0 setSessionBodyLocked = true := by
  decide

/-! ## Output-side lemmas -/

theorem flushLoop_spec (cap : Nat) (enc : WorldPacket → List Nat)
    (q : List WorldPacket) (buf : List Nat) :
    flushLoop cap enc buf q
      = (buf ++ ((flushable cap buf.length enc q).map enc).flatten,
         q.drop (flushable cap buf.length enc q).length) := by
  induction q generalizing buf with
  | nil => simp [flushLoop, flushable]
  | cons p rest ih =>
      simp only [flushLoop, flushable]
      by_cases h : cap < buf.length + (enc p).length
      · rw [if_pos h, if_pos h]
        simp
      · rw [if_neg h, if_neg h, ih (buf ++ enc p)]
        simp [List.append_assoc]

theorem flushLoop_conserves (cap : Nat) (enc : WorldPacket → List Nat)
    (q : List WorldPacket) (buf : List Nat) :
    (flushLoop cap enc buf q).1
        ++ (((flushLoop cap enc buf q).2).map enc).flatten
      = buf ++ (q.map enc).flatten := by
  induction q generalizing buf with
  | nil => simp [flushLoop]
  | cons p rest ih =>
      simp only [flushLoop]
      by_cases h : cap < buf.length + (enc p).length
      · rw [if_pos h]
      · rw [if_neg h, ih (buf ++ enc p)]
        simp [List.append_assoc]

theorem stepOut_inv (cap : Nat) (enc : WorldPacket → List Nat)
    (s : OutState) (op : OutOp) (h : OutInv enc s) :
    OutInv enc (stepOut cap enc s op) := by
  cases op with
  | send p =>
      unfold OutInv at h ⊢
      cases hq : s.packetQueue with
      | nil =>
          simp only [hq, List.map_nil, List.flatten_nil, List.append_nil] at h
          by_cases hc : cap < s.outBuffer.length + (enc p).length
          · simp only [stepOut, SendPacket, hq, iSendPacket, if_pos hc]
            simp only [List.map_cons, List.map_nil, List.flatten_cons,
              List.flatten_nil, List.map_append, List.flatten_append,
              List.append_nil]
            rw [h]
          · simp only [stepOut, SendPacket, hq, iSendPacket, if_neg hc]
            simp only [List.map_nil, List.flatten_nil, List.append_nil,
              List.map_append, List.flatten_append, List.map_cons,
              List.flatten_cons]
            rw [← List.append_assoc, h]
      | cons q qs =>
          simp only [hq] at h
          simp only [stepOut, SendPacket, hq]
          simp only [List.map_append, List.flatten_append, List.map_cons,
            List.flatten_cons, List.map_nil, List.flatten_nil,
            List.append_nil]
          simp only [List.map_cons, List.flatten_cons] at h
          rw [← List.append_assoc, h]
  | update =>
      unfold OutInv at h ⊢
      simp only [stepOut, iFlushPacketQueue]
      rw [List.append_assoc, flushLoop_conserves, ← List.append_assoc]
      exact h
  | output n =>
      unfold OutInv at h ⊢
      simp only [stepOut, handle_output]
      by_cases he : (s.outBuffer.drop (min n s.outBuffer.length)).isEmpty
      · rw [if_pos he]
        dsimp only [iFlushPacketQueue]
        rw [List.append_assoc, flushLoop_conserves, ← List.append_assoc,
          List.append_assoc s.wire, List.take_append_drop]
        exact h
      · rw [if_neg he]
        dsimp only
        rw [List.append_assoc s.wire, List.take_append_drop]
        exact h

theorem runOut_inv (cap : Nat) (enc : WorldPacket → List Nat)
    (ops : List OutOp) : OutInv enc (runOut cap enc ops) := by
  have base : OutInv enc initOutState := by simp [OutInv, initOutState]
  rw [runOut]
  induction ops using List.reverseRecOn with
  | nil => simpa using base
  | append_singleton ops op ih =>
      rw [List.foldl_append, List.foldl_cons, List.foldl_nil]
      exact stepOut_inv cap enc _ op ih

theorem flushable_append_drop (cap : Nat) (enc : WorldPacket → List Nat)
    (q : List WorldPacket) (bl : Nat) :
    flushable cap bl enc q
        ++ q.drop (flushable cap bl enc q).length = q := by
  induction q generalizing bl with
  | nil => simp [flushable]
  | cons p rest ih =>
      simp only [flushable]
      by_cases h : cap < bl + (enc p).length
      · rw [if_pos h]
        simp
      · rw [if_neg h]
        simp only [List.length_cons, List.drop_succ_cons, List.cons_append]
        rw [ih (bl + (enc p).length)]

theorem flushLoop_stops (cap : Nat) (enc : WorldPacket → List Nat)
    (q : List WorldPacket) (buf : List Nat) (p : WorldPacket)
    (rest : List WorldPacket)
    (h : (flushLoop cap enc buf q).2 = p :: rest) :
    cap < (flushLoop cap enc buf q).1.length + (enc p).length := by
  induction q generalizing buf with
  | nil => simp [flushLoop] at h
  | cons p0 rest0 ih =>
      simp only [flushLoop] at h ⊢
      by_cases hc : cap < buf.length + (enc p0).length
      · rw [if_pos hc] at h ⊢
        simp only at h
        obtain ⟨h1, h2⟩ := List.cons.injEq p0 rest0 p rest ▸ h
        subst h1
        simpa using hc
      · rw [if_neg hc] at h ⊢
        exact ih (buf ++ enc p0) h

/-! ## C1: order preservation on the wire -/

/-- C1: for any serialised trace of completed `SendPacket` calls, queue
flushes and transport writes, the bytes delivered to the transport are a
prefix of the concatenation of each completed packet's encoded
(header, payload) in completion order — so no packet's bytes ever
precede those of an earlier-completed call — and once the buffer and
queue are drained the two byte sequences are equal. -/
theorem sendPacket_order_preserved (cap : Nat)
    (enc : WorldPacket → List Nat) (ops : List OutOp) :
    (runOut cap enc ops).wire
        <+: (((runOut cap enc ops).sent.map enc).flatten) ∧
    ((runOut cap enc ops).outBuffer = [] →
      (runOut cap enc ops).packetQueue = [] →
      (runOut cap enc ops).wire
        = (((runOut cap enc ops).sent.map enc).flatten)) := by
  have h := runOut_inv cap enc ops
  unfold OutInv at h
  constructor
  · refine ⟨(runOut cap enc ops).outBuffer
      ++ (((runOut cap enc ops).packetQueue.map enc).flatten), ?_⟩
    rw [← List.append_assoc]
    exact h
  · intro hb hqq
    rw [hb, hqq] at h
    simpa using h

/-- C1 witness: a concrete drained trace — two packets sent, then one
write that the transport fully accepts; the wire equals the
concatenation of the two encodings in completion order. -/
theorem sendPacket_order_preserved_witness :
    (runOut 16 (encodePacket true)
        [OutOp.send ⟨1, [7, 8]⟩, OutOp.send ⟨2, []⟩, OutOp.output 100]).wire
      = (((runOut 16 (encodePacket true)
          [OutOp.send ⟨1, [7, 8]⟩, OutOp.send ⟨2, []⟩,
            OutOp.output 100]).sent.map (encodePacket true)).flatten) :=
  (sendPacket_order_preserved 16 (encodePacket true)
    [OutOp.send ⟨1, [7, 8]⟩, OutOp.send ⟨2, []⟩, OutOp.output 100]).2
    (by decide) (by decide)

/-! ## C3: backpressure is never surfaced as a `SendPacket` failure -/

/-- C3: `SendPacket` returns success (0, never the -1 failure code) in
every backpressure situation: when the overflow queue is non-empty the
packet is appended to the queue; when the queue is empty `iSendPacket`
is attempted, and if it signals insufficient buffer capacity the packet
is pushed onto the queue instead. -/
theorem sendPacket_backpressure_success (cap : Nat)
    (enc : WorldPacket → List Nat) (s : OutState) (p : WorldPacket) :
    (SendPacket cap enc s p).2 = 0 ∧
    (s.packetQueue ≠ [] →
      (SendPacket cap enc s p).1.packetQueue = s.packetQueue ++ [p]) ∧
    (s.packetQueue = [] → iSendPacket cap enc s p = none →
      (SendPacket cap enc s p).1.packetQueue = [p]) ∧
    (s.packetQueue = [] → iSendPacket cap enc s p ≠ none →
      (SendPacket cap enc s p).1.outBuffer = s.outBuffer ++ enc p) := by
  refine ⟨?_, ?_, ?_, ?_⟩
  · unfold SendPacket
    cases hq : s.packetQueue with
    | nil =>
        unfold iSendPacket
        by_cases hc : cap < s.outBuffer.length + (enc p).length
        · rw [if_pos hc]
        · rw [if_neg hc]
    | cons q qs => rfl
  · intro hne
    unfold SendPacket
    cases hq : s.packetQueue with
    | nil => exact absurd hq hne
    | cons q qs => simp
  · intro hq hnone
    unfold SendPacket
    rw [hq, hnone]
  · intro hq hsome
    unfold SendPacket
    rw [hq]
    unfold iSendPacket at hsome ⊢
    by_cases hc : cap < s.outBuffer.length + (enc p).length
    · rw [if_pos hc] at hsome
      exact absurd rfl hsome
    · rw [if_neg hc]

/-- C3 witness: concrete packets — an append to a non-empty queue, an
overflow push with a too-small buffer, and a direct buffer write — all
complete with result 0. -/
theorem sendPacket_backpressure_success_witness :
    (SendPacket 4 (encodePacket true) initOutState ⟨1, []⟩).2 = 0 ∧
    (SendPacket 4 (encodePacket true)
        { outBuffer := [], packetQueue := [⟨9, []⟩], wire := [],
          sent := [⟨9, []⟩] } ⟨1, []⟩).1.packetQueue
      = [⟨9, []⟩] ++ [⟨1, []⟩] ∧
    (SendPacket 1 (encodePacket true) initOutState ⟨1, []⟩).1.packetQueue
      = [⟨1, []⟩] ∧
    (SendPacket 4 (encodePacket true) initOutState ⟨1, []⟩).1.outBuffer
      = initOutState.outBuffer ++ encodePacket true ⟨1, []⟩ :=
  ⟨(sendPacket_backpressure_success 4 (encodePacket true)
      initOutState ⟨1, []⟩).1,
   (sendPacket_backpressure_success 4 (encodePacket true)
      { outBuffer := [], packetQueue := [⟨9, []⟩], wire := [],
        sent := [⟨9, []⟩] } ⟨1, []⟩).2.1 (by decide),
   (sendPacket_backpressure_success 1 (encodePacket true)
      initOutState ⟨1, []⟩).2.2.1 (by decide) (by decide),
   (sendPacket_backpressure_success 4 (encodePacket true)
      initOutState ⟨1, []⟩).2.2.2 (by decide) (by decide)⟩

/-! ## C5: FIFO flush of the overflow queue -/

/-- C5: `iFlushPacketQueue` moves exactly the longest in-order prefix of
queued packets that fits into the remaining buffer space, appending
their encodings to the buffer in FIFO order; the queue keeps the
remaining suffix, still in order, so the queue always decomposes as the
moved prefix followed by the kept remainder; when a packet is left at
the head of the queue it is because it does not fit; the wire and the
completion log are untouched. -/
theorem flushQueue_fifo_order (cap : Nat) (enc : WorldPacket → List Nat)
    (s : OutState) :
    (iFlushPacketQueue cap enc s).outBuffer
        = s.outBuffer
          ++ ((flushable cap s.outBuffer.length enc s.packetQueue).map
              enc).flatten ∧
    (iFlushPacketQueue cap enc s).packetQueue
        = s.packetQueue.drop
            (flushable cap s.outBuffer.length enc s.packetQueue).length ∧
    s.packetQueue
        = flushable cap s.outBuffer.length enc s.packetQueue
          ++ s.packetQueue.drop
              (flushable cap s.outBuffer.length enc s.packetQueue).length ∧
    (∀ p rest, (iFlushPacketQueue cap enc s).packetQueue = p :: rest →
      cap < (iFlushPacketQueue cap enc s).outBuffer.length
        + (enc p).length) ∧
    (iFlushPacketQueue cap enc s).wire = s.wire ∧
    (iFlushPacketQueue cap enc s).sent = s.sent := by
  refine ⟨?_, ?_, ?_, ?_, rfl, rfl⟩
  · simp only [iFlushPacketQueue]
    rw [flushLoop_spec]
  · simp only [iFlushPacketQueue]
    rw [flushLoop_spec]
  · exact (flushable_append_drop cap enc s.packetQueue
      s.outBuffer.length).symm
  · intro p rest hqueue
    simp only [iFlushPacketQueue] at hqueue ⊢
    exact flushLoop_stops cap enc s.packetQueue s.outBuffer p rest hqueue

/-- C5 witness: capacity 10 with two 6-byte packets queued — the first
moves into the buffer, the second stays queued because it does not fit. -/
theorem flushQueue_fifo_order_witness :
    (iFlushPacketQueue 10 (encodePacket true)
        { outBuffer := [], packetQueue := [⟨1, [7, 8]⟩, ⟨2, [9, 9]⟩],
          wire := [], sent := [⟨1, [7, 8]⟩, ⟨2, [9, 9]⟩] }).outBuffer
      = [] ++ ((flushable 10 0 (encodePacket true)
          [⟨1, [7, 8]⟩, ⟨2, [9, 9]⟩]).map (encodePacket true)).flatten ∧
    10 < (iFlushPacketQueue 10 (encodePacket true)
        { outBuffer := [], packetQueue := [⟨1, [7, 8]⟩, ⟨2, [9, 9]⟩],
          wire := [], sent := [⟨1, [7, 8]⟩, ⟨2, [9, 9]⟩] }).outBuffer.length
      + (encodePacket true ⟨2, [9, 9]⟩).length :=
  ⟨(flushQueue_fifo_order 10 (encodePacket true)
      { outBuffer := [], packetQueue := [⟨1, [7, 8]⟩, ⟨2, [9, 9]⟩],
        wire := [], sent := [⟨1, [7, 8]⟩, ⟨2, [9, 9]⟩] }).1,
   (flushQueue_fifo_order 10 (encodePacket true)
      { outBuffer := [], packetQueue := [⟨1, [7, 8]⟩, ⟨2, [9, 9]⟩],
        wire := [], sent := [⟨1, [7, 8]⟩, ⟨2, [9, 9]⟩] }).2.2.2.1
      ⟨2, [9, 9]⟩ [] (by decide)⟩

/-! ## Input-side lemmas -/

theorem inputByte_closed (maxLen : Nat) (s : InState) (b : Nat)
    (h : s.closedInput = true) : inputByte maxLen s b = s := by
  simp [inputByte, h]

theorem feedBytes_closed (maxLen : Nat) (s : InState) (bs : List Nat)
    (h : s.closedInput = true) : feedBytes maxLen s bs = s := by
  induction bs with
  | nil => rfl
  | cons b rest ih =>
      rw [feedBytes, List.foldl_cons, inputByte_closed maxLen s b h]
      exact ih

theorem feedBytes_append (maxLen : Nat) (s : InState) (xs ys : List Nat) :
    feedBytes maxLen s (xs ++ ys) = feedBytes maxLen (feedBytes maxLen s xs) ys := by
  simp [feedBytes, List.foldl_append]

theorem feedChunks_flatten (maxLen : Nat) (s : InState) (cs : List (List Nat)) :
    feedChunks maxLen s cs = feedBytes maxLen s cs.flatten := by
  induction cs generalizing s with
  | nil => rfl
  | cons c rest ih =>
      rw [feedChunks, List.foldl_cons, List.flatten_cons, feedBytes_append]
      exact ih (feedBytes maxLen s c)

theorem feedBytes_payload (maxLen : Nat) (bs : List Nat) (p : PendingPacket)
    (hb : List Nat) (dv : List WorldPacket)
    (hlen : p.got.length + bs.length = p.declaredLen) (hne : bs ≠ []) :
    feedBytes maxLen ⟨hb, some p, dv, false⟩ bs
      = ⟨hb, none, dv ++ [⟨p.cmd, p.got ++ bs⟩], false⟩ := by
  induction bs generalizing p with
  | nil => exact absurd rfl hne
  | cons b rest ih =>
      rw [feedBytes, List.foldl_cons]
      by_cases hfin : p.got.length + 1 = p.declaredLen
      · have hrest : rest = [] := by
          simp only [List.length_cons] at hlen
          have hr0 : rest.length = 0 := by omega
          exact List.length_eq_zero.mp hr0
        subst hrest
        simp only [inputByte, hfin, if_pos]
        simp [hfin]
      · have hrest : rest ≠ [] := by
          intro hr
          subst hr
          simp only [List.length_cons, List.length_nil] at hlen
          omega
        simp only [inputByte]
        rw [if_neg (by simp)]
        simp only [hfin, if_false]
        have := ih { p with got := p.got ++ [b] }
          (by simp only [List.length_append, List.length_cons] at hlen ⊢; simpa using by omega) hrest
        simp only at this
        simpa [feedBytes, List.append_assoc] using this

theorem feedBytes_header_ok (maxLen len cmd : Nat) (dv : List WorldPacket)
    (hmax : len ≤ maxLen) (hlen : len < 65536) (hpos : 0 < len)
    (hcmd : cmd < 4294967296) :
    feedBytes maxLen ⟨[], none, dv, false⟩ (encodeClientPktHeader len cmd)
      = ⟨[], some ⟨cmd, len, []⟩, dv, false⟩ := by
  have hsz : decodeSize [len % 256, len / 256 % 256, cmd % 256,
      cmd / 256 % 256, cmd / 256 / 256 % 256,
      cmd / 256 / 256 / 256 % 256] = len := by
    simp [decodeSize]
    omega
  have hcm : decodeClientCmd [len % 256, len / 256 % 256, cmd % 256,
      cmd / 256 % 256, cmd / 256 / 256 % 256,
      cmd / 256 / 256 / 256 % 256] = cmd := by
    simp [decodeClientCmd]
    omega
  have h1 : ¬ maxLen < len := by omega
  have h2 : ¬ len = 0 := by omega
  simp [encodeClientPktHeader, putLE, feedBytes, inputByte, clientHeaderSize,
    packedSizeof, clientPktHeaderWidths, hsz, hcm, h1, h2]

theorem feedBytes_header_zero (maxLen cmd : Nat) (dv : List WorldPacket)
    (hcmd : cmd < 4294967296) :
    feedBytes maxLen ⟨[], none, dv, false⟩ (encodeClientPktHeader 0 cmd)
      = ⟨[], none, dv ++ [⟨cmd, []⟩], false⟩ := by
  have hcm : decodeClientCmd [0, 0, cmd % 256,
      cmd / 256 % 256, cmd / 256 / 256 % 256,
      cmd / 256 / 256 / 256 % 256] = cmd := by
    simp [decodeClientCmd]
    omega
  simp [encodeClientPktHeader, putLE, feedBytes, inputByte, clientHeaderSize,
    packedSizeof, clientPktHeaderWidths, decodeSize, hcm]

theorem feedBytes_header_oversize (maxLen len cmd : Nat)
    (dv : List WorldPacket) (hover : maxLen < len) (hlen : len < 65536) :
    feedBytes maxLen ⟨[], none, dv, false⟩ (encodeClientPktHeader len cmd)
      = ⟨encodeClientPktHeader len cmd, none, dv, true⟩ := by
  have hsz : decodeSize [len % 256, len / 256 % 256, cmd % 256,
      cmd / 256 % 256, cmd / 256 / 256 % 256,
      cmd / 256 / 256 / 256 % 256] = len := by
    simp [decodeSize]
    omega
  simp [encodeClientPktHeader, putLE, feedBytes, inputByte, clientHeaderSize,
    packedSizeof, clientPktHeaderWidths, hsz, hover]

theorem reassembly_whole (maxLen cmd : Nat) (pay : List Nat)
    (hmax : pay.length ≤ maxLen) (hlen : pay.length < 65536)
    (hcmd : cmd < 4294967296) :
    feedBytes maxLen initInState (encodeClientPktHeader pay.length cmd ++ pay)
      = ⟨[], none, [⟨cmd, pay⟩], false⟩ := by
  rw [feedBytes_append]
  cases pay with
  | nil =>
      rw [show initInState = (⟨[], none, [], false⟩ : InState) from rfl]
      rw [show List.length ([] : List Nat) = 0 from rfl]
      rw [feedBytes_header_zero maxLen cmd [] hcmd]
      rfl
  | cons b rest =>
      rw [show initInState = (⟨[], none, [], false⟩ : InState) from rfl]
      rw [feedBytes_header_ok maxLen (b :: rest).length cmd []
        hmax hlen (by simp) hcmd]
      exact feedBytes_payload maxLen (b :: rest) ⟨cmd, (b :: rest).length, []⟩
        [] [] (by simp) (by simp)

theorem stepConn_address (cap maxLen : Nat) (c : Conn) (op : ConnOp) :
    (stepConn cap maxLen c op).m_Address = c.m_Address := by
  cases op <;>
    simp only [stepConn, CloseSocket, SetSession, SetClientSocket] <;>
    split_ifs <;> rfl

theorem runConn_address (cap maxLen : Nat) (ops : List ConnOp) (c : Conn) :
    (runConn cap maxLen c ops).m_Address = c.m_Address := by
  induction ops generalizing c with
  | nil => rfl
  | cons op rest ih =>
      rw [runConn, List.foldl_cons]
      exact (ih (stepConn cap maxLen c op)).trans
        (stepConn_address cap maxLen c op)

theorem stepConn_closing_mono (cap maxLen : Nat) (c : Conn) (op : ConnOp)
    (h : c.closing = true) : (stepConn cap maxLen c op).closing = true := by
  cases op <;> simp [stepConn, CloseSocket, SetSession, SetClientSocket, h]

theorem runConn_closing_mono (cap maxLen : Nat) (ops : List ConnOp)
    (c : Conn) (h : c.closing = true) :
    (runConn cap maxLen c ops).closing = true := by
  induction ops generalizing c with
  | nil => exact h
  | cons op rest ih =>
      rw [runConn, List.foldl_cons]
      exact ih (stepConn cap maxLen c op)
        (stepConn_closing_mono cap maxLen c op h)

theorem stepConn_serverSide_mono (cap maxLen : Nat) (c : Conn) (op : ConnOp)
    (h : c.m_isServerSocket = false) :
    (stepConn cap maxLen c op).m_isServerSocket = false := by
  cases op with
  | sendPacket p => by_cases hcl : c.closing <;> simp [stepConn, hcl, h]
  | update => by_cases hcl : c.closing <;> simp [stepConn, hcl, h]
  | handleOutput n => by_cases hcl : c.closing <;> simp [stepConn, hcl, h]
  | handleInput bs =>
      by_cases hcl : c.closing
      · simp [stepConn, hcl, h]
      · by_cases hc2 : (feedBytes maxLen c.inp bs).closedInput
        · simp [stepConn, hcl, hc2, CloseSocket, apply_ite, h]
        · simp [stepConn, hcl, hc2, h]
  | closeSocket => simp [stepConn, CloseSocket, apply_ite, h]
  | setSession t => simp [stepConn, SetSession, h]
  | setClientSocket => simp [stepConn, SetClientSocket]

theorem runConn_serverSide_mono (cap maxLen : Nat) (ops : List ConnOp)
    (c : Conn) (h : c.m_isServerSocket = false) :
    (runConn cap maxLen c ops).m_isServerSocket = false := by
  induction ops generalizing c with
  | nil => exact h
  | cons op rest ih =>
      rw [runConn, List.foldl_cons]
      exact ih (stepConn cap maxLen c op)
        (stepConn_serverSide_mono cap maxLen c op h)

theorem stepConn_teardown_inv (cap maxLen : Nat) (c : Conn) (op : ConnOp)
    (h : c.teardowns = if c.closing then 1 else 0) :
    (stepConn cap maxLen c op).teardowns
      = if (stepConn cap maxLen c op).closing then 1 else 0 := by
  cases op <;>
    by_cases hcl : c.closing <;>
    simp [stepConn, CloseSocket, SetSession, SetClientSocket, hcl, h] <;>
    split_ifs <;> simp_all

theorem runConn_teardown_inv (cap maxLen : Nat) (ops : List ConnOp)
    (c : Conn) (h : c.teardowns = if c.closing then 1 else 0) :
    (runConn cap maxLen c ops).teardowns
      = if (runConn cap maxLen c ops).closing then 1 else 0 := by
  induction ops generalizing c with
  | nil => exact h
  | cons op rest ih =>
      rw [runConn, List.foldl_cons]
      exact ih (stepConn cap maxLen c op)
        (stepConn_teardown_inv cap maxLen c op h)

/-! ## C2: reassembly under arbitrary fragmentation -/

/-- C2: for every payload and every split of the inbound byte stream
(header followed by payload) into non-empty chunks delivered across
separate input events, the single packet handed to the session carries
exactly the original payload bytes, the reassembler is back in header
phase with nothing pending, and the connection stays open; a zero-length
payload is valid and the packet completes immediately once the 6 header
bytes are consumed. -/
theorem fragmented_reassembly (maxLen cmd : Nat) (pay : List Nat)
    (cs : List (List Nat)) (hne : ∀ c ∈ cs, c ≠ [])
    (hjoin : cs.flatten = encodeClientPktHeader pay.length cmd ++ pay)
    (hmax : pay.length ≤ maxLen) (hlen : pay.length < 65536)
    (hcmd : cmd < 4294967296) :
    (feedChunks maxLen initInState cs).delivered = [⟨cmd, pay⟩] ∧
    feedChunks maxLen initInState cs
      = ⟨[], none, [⟨cmd, pay⟩], false⟩ ∧
    (pay = [] →
      feedBytes maxLen initInState (encodeClientPktHeader 0 cmd)
        = ⟨[], none, [⟨cmd, []⟩], false⟩) := by
  have h := reassembly_whole maxLen cmd pay hmax hlen hcmd
  rw [feedChunks_flatten, hjoin]
  refine ⟨by rw [h], h, ?_⟩
  intro hp
  subst hp
  simpa using h

/-- C2 witness: payload [5, 6, 7] with opcode 3, delivered in three
chunks that split both the header and the payload. -/
theorem fragmented_reassembly_witness :
    (feedChunks 100 initInState [[3, 0], [3, 0, 0, 0, 5], [6, 7]]).delivered
      = [⟨3, [5, 6, 7]⟩] :=
  (fragmented_reassembly 100 3 [5, 6, 7] [[3, 0], [3, 0, 0, 0, 5], [6, 7]]
    (by decide) (by decide) (by decide) (by decide) (by decide)).1

/-! ## C4: oversized declared length closes the connection -/

/-- C4: a header whose declared payload length exceeds the configured
maximum closes the connection; no packet is delivered to the session, no
pending payload buffer is created for the declared size, and any bytes
arriving after the violation are ignored. -/
theorem oversized_packet_rejected (maxLen len cmd : Nat)
    (extra : List Nat) (hover : maxLen < len) (hlen : len < 65536) :
    (feedBytes maxLen initInState
        (encodeClientPktHeader len cmd ++ extra)).closedInput = true ∧
    (feedBytes maxLen initInState
        (encodeClientPktHeader len cmd ++ extra)).delivered = [] ∧
    (feedBytes maxLen initInState
        (encodeClientPktHeader len cmd ++ extra)).recvWPct = none := by
  rw [feedBytes_append,
    show initInState = (⟨[], none, [], false⟩ : InState) from rfl,
    feedBytes_header_oversize maxLen len cmd [] hover hlen,
    feedBytes_closed maxLen _ extra rfl]
  exact ⟨rfl, rfl, rfl⟩

/-- C4 witness: declared length 3 with maximum 2 — closed, nothing
delivered, nothing allocated, trailing byte ignored. -/
theorem oversized_packet_rejected_witness :
    (feedBytes 2 initInState
        (encodeClientPktHeader 3 1 ++ [9])).closedInput = true ∧
    (feedBytes 2 initInState
        (encodeClientPktHeader 3 1 ++ [9])).delivered = [] ∧
    (feedBytes 2 initInState
        (encodeClientPktHeader 3 1 ++ [9])).recvWPct = none :=
  oversized_packet_rejected 2 3 1 [9] (by decide) (by decide)

/-! ## C7: idempotent close, monotonic closing flag -/

/-- C7: `CloseSocket` is idempotent — `IsClosed` is true as soon as a
`closeSocket` step returns and remains true under every later operation,
a second `closeSocket` step leaves the state exactly as the first left
it, and over any trace from a fresh connection the number of transport
teardown requests is 1 when the connection is closing and 0 otherwise,
so repeated (or concurrent, serialised by the lock) close calls produce
exactly one teardown sequence. -/
theorem closeSocket_idempotent (cap maxLen : Nat) (addr : String)
    (c : Conn) (ops : List ConnOp) :
    IsClosed (stepConn cap maxLen c ConnOp.closeSocket) = true ∧
    IsClosed (runConn cap maxLen
        (stepConn cap maxLen c ConnOp.closeSocket) ops) = true ∧
    stepConn cap maxLen (stepConn cap maxLen c ConnOp.closeSocket)
        ConnOp.closeSocket
      = stepConn cap maxLen c ConnOp.closeSocket ∧
    (runConn cap maxLen (initConn addr) ops).teardowns
      = (if (runConn cap maxLen (initConn addr) ops).closing
          then 1 else 0) := by
  have h1 : (stepConn cap maxLen c ConnOp.closeSocket).closing = true := by
    by_cases hcl : c.closing <;> simp [stepConn, CloseSocket, hcl]
  refine ⟨h1, runConn_closing_mono cap maxLen ops _ h1, ?_, ?_⟩
  · simp [stepConn, CloseSocket, apply_ite]
    by_cases hcl : c.closing <;> simp [hcl]
  · exact runConn_teardown_inv cap maxLen ops (initConn addr)
      (by simp [initConn])

/-! ## C9: the remote address is immutable -/

/-- C9: `GetRemoteAddress` returns the same string before and after any
sequence of operations on the connection — no operation writes
`m_Address` after it is set at open. -/
theorem remoteAddress_immutable (cap maxLen : Nat) (c : Conn)
    (ops : List ConnOp) :
    GetRemoteAddress (runConn cap maxLen c ops) = GetRemoteAddress c :=
  runConn_address cap maxLen ops c

/-! ## C10: the server-side flag is monotonic true→false -/

/-- C10: after a `SetClientSocket` step, `IsServerSide` returns false
after every subsequent sequence of operations, and no single operation
of the class ever turns the flag back on. -/
theorem setClientSocket_monotone (cap maxLen : Nat) (c : Conn)
    (ops : List ConnOp) (op : ConnOp) :
    IsServerSide (runConn cap maxLen
        (stepConn cap maxLen c ConnOp.setClientSocket) ops) = false ∧
    (IsServerSide c = false →
      IsServerSide (stepConn cap maxLen c op) = false) := by
  constructor
  · exact runConn_serverSide_mono cap maxLen ops _ rfl
  · intro h
    exact stepConn_serverSide_mono cap maxLen c op h

/-- C10 witness: a client-side connection stays client-side across an
update step, both along a trace and for a single further operation. -/
theorem setClientSocket_monotone_witness :
    IsServerSide (runConn 4 4 (stepConn 4 4 (initConn "peer")
        ConnOp.setClientSocket) [ConnOp.update]) = false ∧
    IsServerSide (stepConn 4 4 (stepConn 4 4 (initConn "peer")
        ConnOp.setClientSocket) ConnOp.update) = false :=
  ⟨(setClientSocket_monotone 4 4 (initConn "peer")
      [ConnOp.update] ConnOp.update).1,
   (setClientSocket_monotone 4 4 (stepConn 4 4 (initConn "peer")
      ConnOp.setClientSocket) [] ConnOp.update).2 (by decide)⟩

end MangosSpec
